import Mathlib

/-!
Verification development for the Reason-from-Future (RFF) core
(`src/reason_from_future/core.py`).

The embedding models:
* `Workspace` (a Python `dict` subclass) as an association list
  `Dict V := List (String × V)` with Python `dict` semantics:
  insertion replaces the value of an existing key in place, otherwise
  appends, so key-iteration order is insertion order.
* `ProblemSpec` as a structure of the abstract methods of the Python ABC.
* the LLM backend as an oracle `llm : Nat → String → String` mapping a
  call index and prompt to the raw response (each call may answer
  differently).
* the controller `reason_from_future` as a fold over iterations; Python
  exceptions (the exhaustion `RuntimeError`, a `KeyError` on a missing
  goal key) become an `Except RffError` result.

Values stored in a workspace are an arbitrary type `V` (Python `Any`);
`ToString V` stands in for Python's `str`.
-/

set_option autoImplicit false

namespace Rff

/-- Python `dict` with `String` keys, modelled as an association list in
key-insertion order. -/
abbrev Dict (V : Type) : Type := List (String × V)

section DictOps

variable {V : Type}

/-- Keys of a dict, in iteration order (`list(d.keys())`). -/
def dictKeys (d : Dict V) : List String := d.map Prod.fst

/-- Python `d.get(k)` / `d[k]` lookup (first matching entry). -/
def dictFind : Dict V → String → Option V
  | [], _ => none
  | p :: rest, k => if p.1 = k then some p.2 else dictFind rest k

/-- Python `d.get(k, dflt)`. -/
def dictGetD (d : Dict V) (k : String) (dflt : V) : V := (dictFind d k).getD dflt

/-- Python `d[k] = v`: replace in place when the key exists, else append. -/
def dictInsert : Dict V → String → V → Dict V
  | [], k, v => [(k, v)]
  | p :: rest, k, v => if p.1 = k then (k, v) :: rest else p :: dictInsert rest k v

/-- Python `d.update(other)`: fold `dictInsert` over `other` in order. -/
def dictUpdate (d : Dict V) : Dict V → Dict V
  | [] => d
  | p :: rest => dictUpdate (dictInsert d p.1 p.2) rest

/-- `Workspace.__or__`: `combined = Workspace(); combined.update(self);
combined.update(other); return combined`. -/
def wsOr (a b : Dict V) : Dict V := dictUpdate (dictUpdate [] a) b

end DictOps

/-- The `ProblemSpec` abstract base class: the capability contract every
domain plugin implements.  Python signatures are kept; `verify_final`'s
third component (the gold value, used only for verbose printing) is a
`String`. -/
structure ProblemSpec (V : Type) where
  derive_final_target : String → String
  parse_workspace_update : String → Dict V → Dict V
  check_local : Dict V → String → Bool
  verify_final : Dict V → Bool × String × String
  prompt_last_step : Dict V → String → Finset String → String
  prompt_forward_step : Dict V → String → Finset String → String
  parse_target_step : String → String
  merge_aliases : Dict V → Dict V

/-- The controller's environment: the strategy plugin, the generation
backend oracle (call index ↦ prompt ↦ raw text), and the loop
configuration (`require_gold`, `min_iters`, `verbose`). -/
structure Env (V : Type) where
  spec : ProblemSpec V
  llm : Nat → String → String
  require_gold : Bool
  min_iters : Nat
  verbose : Bool

/-- Mutable state of one `reason_from_future` run: the workspace `state`,
the `avoid` set, the `attempt_counts` dict, the `stagnation_counter`, and
the number of LLM calls made so far (feeding the oracle). -/
structure St (V : Type) where
  state : Dict V
  avoid : Finset String
  attempt_counts : Dict Nat
  stagnation_counter : Nat
  calls : Nat
deriving DecidableEq

/-- `max_fails_per_var = 3` in `reason_from_future`. -/
def max_fails_per_var : Nat := 3

/-- `stagnation_window = 4` in `reason_from_future`. -/
def stagnation_window : Nat := 4

/-- The nested helper `register_fail`: increment the failure counter and
add the symbol to the avoid set when the threshold is hit. -/
def register_fail (counts : Dict Nat) (avoid : Finset String) (symbol : String) :
    Dict Nat × Finset String :=
  let n := dictGetD counts symbol 0 + 1
  let counts2 := dictInsert counts symbol n
  if max_fails_per_var ≤ n then (counts2, insert symbol avoid) else (counts2, avoid)

/-- The avoid set rebuilt by the soft-restart:
`{s for s, cnt in attempt_counts.items() if cnt >= max_fails_per_var}`. -/
def permanentAvoid (counts : Dict Nat) : Finset String :=
  ((counts.filter fun p => max_fails_per_var ≤ p.2).map Prod.fst).toFinset

/-- `iter_idx >= (min_iters - 1)` over Python integers. -/
def minItersOk (min_iters iter_idx : Nat) : Bool :=
  decide ((min_iters : Int) - 1 ≤ (iter_idx : Int))

/-- Errors escaping the loop: the exhaustion `RuntimeError` and a Python
`KeyError` from `state[goal]` when `check_local` passed without the key
being present. -/
inductive RffError
  | exhausted
  | keyError (symbol : String)
deriving DecidableEq

/-- Outcome of one controller iteration: an answer returned to the
caller, an escaping error, or the state for the next iteration. -/
inductive IterOut (V : Type)
  | done (answer : String)
  | fail (e : RffError)
  | cont (st : St V)
deriving DecidableEq

/-- Outcome of the forward-execution block (steps 3–4 of the loop body):
`done`/`fail` end the run, `skip` is a Python `continue` (the
post-iteration bookkeeping is NOT reached), `fall` falls through to the
post-iteration bookkeeping carrying `made_progress`. -/
inductive ForwardOut (V : Type)
  | done (answer : String)
  | fail (e : RffError)
  | skip (st : St V)
  | fall (st : St V) (made_progress : Bool)
deriving DecidableEq

section Controller

variable {V : Type} [ToString V]

/-- Step 1 of the loop body: if `check_local(state, goal)` holds, either
return (no-gold fast exit or verified answer) or `register_fail(goal)`
and fall through. -/
def goalCheckPhase (env : Env V) (goal : String) (iter_idx : Nat) (st : St V) : IterOut V :=
  if env.spec.check_local st.state goal then
    if !env.require_gold && minItersOk env.min_iters iter_idx then
      match dictFind st.state goal with
      | some v => .done (toString v)
      | none => .fail (.keyError goal)
    else
      let r := env.spec.verify_final st.state
      if r.1 then .done r.2.1
      else
        let rf := register_fail st.attempt_counts st.avoid goal
        .cont { st with attempt_counts := rf.1, avoid := rf.2 }
  else .cont st

/-- The workspace fragment parsed from the direct-attempt response in
step 1b. -/
def directParsed (env : Env V) (goal : String) (st : St V) : Dict V :=
  env.spec.parse_workspace_update
    (env.llm st.calls (env.spec.prompt_forward_step st.state goal st.avoid)) st.state

/-- Step 1b: the direct-attempt fast path.  When the goal is not in the
avoid set, compute it directly; unless the run ends, the candidate
workspace becomes the running state and `register_fail(goal)` runs. -/
def directAttemptPhase (env : Env V) (goal : String) (iter_idx : Nat) (st : St V) : IterOut V :=
  if goal ∈ st.avoid then .cont st
  else
    let direct_state := wsOr st.state (directParsed env goal st)
    let commit : IterOut V :=
      let rf := register_fail st.attempt_counts st.avoid goal
      .cont { st with state := direct_state, attempt_counts := rf.1, avoid := rf.2,
                      calls := st.calls + 1 }
    if env.spec.check_local direct_state goal then
      if !env.require_gold && minItersOk env.min_iters iter_idx then
        match dictFind direct_state goal with
        | some v => .done (toString v)
        | none => .fail (.keyError goal)
      else
        let r := env.spec.verify_final direct_state
        if r.1 then .done r.2.1 else commit
    else commit

/-- Step 2: backward planning.  Ask for the immediate prerequisite of the
goal and parse the target symbol. -/
def backwardPhase (env : Env V) (goal : String) (st : St V) : String × St V :=
  let raw := env.llm st.calls (env.spec.prompt_last_step st.state goal st.avoid)
  (env.spec.parse_target_step raw, { st with calls := st.calls + 1 })

/-- The workspace fragment parsed from the forward-execution response in
step 3. -/
def forwardParsed (env : Env V) (target_step : String) (st : St V) : Dict V :=
  env.spec.parse_workspace_update
    (env.llm st.calls (env.spec.prompt_forward_step st.state target_step st.avoid)) st.state

/-- `llm_provided_var`: the first key of the parsed update, if any
(`list(parsed_update.keys())[0]`). -/
def resolveTarget (parsed : Dict V) : Option String := (dictKeys parsed).head?

/-- Steps 3–4: forward execution for the proposed prerequisite and the
three-way dispatch on which symbol the proposal actually targets. -/
def forwardPhase (env : Env V) (goal target_step : String) (iter_idx : Nat) (st : St V) :
    ForwardOut V :=
  let parsed_update := forwardParsed env target_step st
  let st1 : St V := { st with calls := st.calls + 1 }
  match resolveTarget parsed_update with
  | some v =>
    if v = goal then
      let temp := wsOr st1.state parsed_update
      if env.spec.check_local temp goal then
        if !env.require_gold && minItersOk env.min_iters iter_idx then
          match dictFind temp goal with
          | some x => .done (toString x)
          | none => .fail (.keyError goal)
        else
          let r := env.spec.verify_final temp
          if r.1 then .done r.2.1
          else if env.verbose then
            -- `elif verbose:` only prints; control falls through to the
            -- post-iteration bookkeeping with no `register_fail`.
            .fall st1 false
          else
            let rf1 := register_fail st1.attempt_counts st1.avoid goal
            let rf2 := if target_step ≠ goal then register_fail rf1.1 rf1.2 target_step else rf1
            .skip { st1 with attempt_counts := rf2.1, avoid := rf2.2 }
      else
        let rf1 := register_fail st1.attempt_counts st1.avoid goal
        let rf2 := if target_step ≠ goal then register_fail rf1.1 rf1.2 target_step else rf1
        .skip { st1 with attempt_counts := rf2.1, avoid := rf2.2 }
    else if v = target_step then
      let temp := wsOr st1.state parsed_update
      if env.spec.check_local temp target_step then
        let rf := register_fail st1.attempt_counts st1.avoid target_step
        .fall { st1 with state := temp, attempt_counts := rf.1, avoid := rf.2 } true
      else
        let rf := register_fail st1.attempt_counts st1.avoid target_step
        .skip { st1 with attempt_counts := rf.1, avoid := rf.2 }
    else
      let rf := register_fail st1.attempt_counts st1.avoid target_step
      .skip { st1 with attempt_counts := rf.1, avoid := rf.2 }
  | none =>
      let rf := register_fail st1.attempt_counts st1.avoid target_step
      .skip { st1 with attempt_counts := rf.1, avoid := rf.2 }

/-- Steps 5–6: alias coalescing and stagnation bookkeeping (only reached
when the iteration body did not `continue`). -/
def bookkeepingPhase (env : Env V) (st : St V) (made_progress : Bool) : St V :=
  let st2 : St V := { st with state := env.spec.merge_aliases st.state }
  let st3 : St V :=
    if made_progress then { st2 with stagnation_counter := 0 }
    else { st2 with stagnation_counter := st2.stagnation_counter + 1 }
  if stagnation_window ≤ st3.stagnation_counter then
    { st3 with avoid := permanentAvoid st3.attempt_counts, stagnation_counter := 0 }
  else st3

/-- One full iteration of the `for iter_idx in range(max_iters)` body. -/
def runIteration (env : Env V) (goal : String) (iter_idx : Nat) (st : St V) : IterOut V :=
  match goalCheckPhase env goal iter_idx st with
  | .done a => .done a
  | .fail e => .fail e
  | .cont st1 =>
    match directAttemptPhase env goal iter_idx st1 with
    | .done a => .done a
    | .fail e => .fail e
    | .cont st2 =>
      let tb := backwardPhase env goal st2
      if tb.1 = "" ∨ tb.1 ∈ tb.2.avoid then .cont tb.2
      else
        match forwardPhase env goal tb.1 iter_idx tb.2 with
        | .done a => .done a
        | .fail e => .fail e
        | .skip st4 => .cont st4
        | .fall st4 mp => .cont (bookkeepingPhase env st4 mp)

/-- The iteration loop, structurally recursive on the remaining budget;
exhausting the budget raises `RuntimeError` (here `.error .exhausted`). -/
def runLoop (env : Env V) (goal : String) : Nat → Nat → St V → Except RffError String
  | _, 0, _ => .error .exhausted
  | iter_idx, fuel + 1, st =>
    match runIteration env goal iter_idx st with
    | .done a => .ok a
    | .fail e => .error e
    | .cont st2 => runLoop env goal (iter_idx + 1) fuel st2

/-- Fresh run state: empty workspace, empty avoid set, empty counters. -/
def initSt : St V :=
  { state := [], avoid := ∅, attempt_counts := [], stagnation_counter := 0, calls := 0 }

/-- The controller `reason_from_future`: derive the constant goal and run
the loop for `max_iters` iterations. -/
def reason_from_future (problem : String) (env : Env V) (max_iters : Nat) :
    Except RffError String :=
  runLoop env (env.spec.derive_final_target problem) 0 max_iters initSt

end Controller

/-! Concrete stub strategies used to exercise the controller on closed
inputs. -/

/-- A stub `ProblemSpec` with constant answers: every forward response
parses to `parsed`, `check_local` constantly returns `chk`, and
`verify_final` constantly returns `ver`. -/
def constSpec (parsed : Dict String) (chk ver : Bool) : ProblemSpec String :=
  { derive_final_target := fun _ => "g"
    parse_workspace_update := fun _ _ => parsed
    check_local := fun _ _ => chk
    verify_final := fun _ => (ver, "ans", "gold")
    prompt_last_step := fun _ _ _ => "L"
    prompt_forward_step := fun _ _ _ => "F"
    parse_target_step := fun _ => ""
    merge_aliases := fun ws => ws }

/-- Gold-required environment around `constSpec` with a silent backend. -/
def constEnv (parsed : Dict String) (chk ver verbose : Bool) : Env String :=
  { spec := constSpec parsed chk ver
    llm := fun _ _ => ""
    require_gold := true
    min_iters := 1
    verbose := verbose }

/-- Presence flags for the two-hop stub's prompts: which of `A`, `B` the
workspace already holds. -/
def flagsC8 (ws : Dict String) : String :=
  (if (dictFind ws "A").isSome then "A" else "") ++
    (if (dictFind ws "B").isSome then "B" else "")

/-- Deterministic two-hop stub strategy: the objective `goal` needs `B`
then `A`; each prerequisite's forward computation is accepted on its
first attempt, and the objective's value `42` is produced and verified
once both are present. -/
def specC8 : ProblemSpec String :=
  { derive_final_target := fun _ => "goal"
    parse_workspace_update := fun raw _ =>
      if raw = "goal|AB" then [("goal", "42")]
      else if raw = "B|" then [("B", "1")]
      else if raw = "A|B" then [("A", "1")]
      else []
    check_local := fun ws sym => (dictFind ws sym).isSome
    verify_final := fun ws => (decide (dictFind ws "goal" = some "42"), "42", "42")
    prompt_last_step := fun ws _ _ => "last|" ++ flagsC8 ws
    prompt_forward_step := fun ws t _ => t ++ "|" ++ flagsC8 ws
    parse_target_step := fun raw =>
      if raw = "last|" then "B" else if raw = "last|B" then "A" else ""
    merge_aliases := fun ws => ws }

/-- Environment for the two-hop stub: the backend echoes the prompt. -/
def envC8 : Env String :=
  { spec := specC8
    llm := fun _ p => p
    require_gold := true
    min_iters := 1
    verbose := false }

/-- A run state in which the objective `g` has permanently failed:
counter at the threshold and `g` in the avoid set. -/
def stC9 : St String :=
  { state := [], avoid := {"g"}, attempt_counts := [("g", 3)]
    stagnation_counter := 0, calls := 0 }

/-! Association-list (Python `dict`) lemmas. -/

section DictLemmas

variable {V : Type}

theorem dictFind_insert_self (d : Dict V) (k : String) (v : V) :
    dictFind (dictInsert d k v) k = some v := by
  induction d with
  | nil => simp [dictInsert, dictFind]
  | cons p rest ih =>
    by_cases h : p.1 = k
    · simp [dictInsert, h, dictFind]
    · simp [dictInsert, h, dictFind, ih]

theorem dictFind_insert_ne (d : Dict V) {k k' : String} (v : V) (hne : k' ≠ k) :
    dictFind (dictInsert d k v) k' = dictFind d k' := by
  have h2 : ¬(k = k') := fun hh => hne hh.symm
  induction d with
  | nil => simp [dictInsert, dictFind, h2]
  | cons p rest ih =>
    by_cases h : p.1 = k
    · simp [dictInsert, h, dictFind, h2]
    · simp [dictInsert, h, dictFind, ih]

theorem dictKeys_cons (p : String × V) (rest : Dict V) :
    dictKeys (p :: rest) = p.1 :: dictKeys rest := rfl

theorem mem_dictKeys_cons {p : String × V} {rest : Dict V} {k : String} :
    k ∈ dictKeys (p :: rest) ↔ k = p.1 ∨ k ∈ dictKeys rest := List.mem_cons

theorem dictKeys_insert (d : Dict V) (k : String) (v : V) :
    dictKeys (dictInsert d k v) =
      if k ∈ dictKeys d then dictKeys d else dictKeys d ++ [k] := by
  induction d with
  | nil => simp [dictInsert, dictKeys]
  | cons p rest ih =>
    by_cases h : p.1 = k
    · have hk : k ∈ dictKeys (p :: rest) := mem_dictKeys_cons.mpr (Or.inl h.symm)
      rw [dictInsert, if_pos h, if_pos hk, dictKeys_cons, dictKeys_cons, h]
    · have h' : ¬(k = p.1) := fun hh => h hh.symm
      have hkeys : dictKeys (dictInsert (p :: rest) k v) =
          p.1 :: dictKeys (dictInsert rest k v) := by
        rw [dictInsert, if_neg h, dictKeys_cons]
      by_cases hm : k ∈ dictKeys rest
      · rw [hkeys, ih, if_pos hm, if_pos (mem_dictKeys_cons.mpr (Or.inr hm)), dictKeys_cons]
      · rw [hkeys, ih, if_neg hm,
          if_neg (fun hc => (mem_dictKeys_cons.mp hc).elim h' hm), dictKeys_cons,
          List.cons_append]

theorem mem_dictKeys_insert {d : Dict V} {k k' : String} {v : V} :
    k' ∈ dictKeys (dictInsert d k v) ↔ k' ∈ dictKeys d ∨ k' = k := by
  rw [dictKeys_insert]
  by_cases h : k ∈ dictKeys d
  · simp only [if_pos h]
    exact ⟨Or.inl, fun hh => hh.elim id fun e => e ▸ h⟩
  · simp [h]

theorem dictInsert_of_not_mem {d : Dict V} {k : String} (v : V) (h : k ∉ dictKeys d) :
    dictInsert d k v = d ++ [(k, v)] := by
  induction d with
  | nil => simp [dictInsert]
  | cons p rest ih =>
    rw [mem_dictKeys_cons, not_or] at h
    have hne : ¬(p.1 = k) := fun hh => h.1 hh.symm
    rw [dictInsert, if_neg hne, ih h.2, List.cons_append]

theorem mem_dictKeys_dictUpdate {b : Dict V} {k : String} :
    ∀ d : Dict V, k ∈ dictKeys (dictUpdate d b) ↔ k ∈ dictKeys d ∨ k ∈ dictKeys b := by
  induction b with
  | nil => intro d; simp [dictUpdate, dictKeys]
  | cons p rest ih =>
    intro d
    rw [dictUpdate, ih, mem_dictKeys_insert, mem_dictKeys_cons]
    tauto

theorem dictFind_dictUpdate_of_not_mem {b : Dict V} {k : String} (h : k ∉ dictKeys b) :
    ∀ d, dictFind (dictUpdate d b) k = dictFind d k := by
  induction b with
  | nil => intro d; simp [dictUpdate]
  | cons p rest ih =>
    intro d
    rw [mem_dictKeys_cons, not_or] at h
    rw [dictUpdate, ih h.2, dictFind_insert_ne _ _ h.1]

theorem dictFind_dictUpdate_of_mem {b : Dict V} (hb : (dictKeys b).Nodup) {k : String}
    (h : k ∈ dictKeys b) : ∀ d, dictFind (dictUpdate d b) k = dictFind b k := by
  induction b with
  | nil => simp [dictKeys] at h
  | cons p rest ih =>
    intro d
    rw [dictKeys_cons, List.nodup_cons] at hb
    by_cases hk : k = p.1
    · subst hk
      rw [dictUpdate, dictFind_dictUpdate_of_not_mem hb.1, dictFind_insert_self]
      simp [dictFind]
    · have hmem : k ∈ dictKeys rest := (mem_dictKeys_cons.mp h).elim (fun e => absurd e hk) id
      have hpk : ¬(p.1 = k) := fun hh => hk hh.symm
      rw [dictUpdate, ih hb.2 hmem]
      simp [dictFind, hpk]

theorem dictUpdate_eq_append {b : Dict V} (hb : (dictKeys b).Nodup) :
    ∀ d, (∀ k ∈ dictKeys b, k ∉ dictKeys d) → dictUpdate d b = d ++ b := by
  induction b with
  | nil => intro d _; simp [dictUpdate]
  | cons p rest ih =>
    intro d hd
    rw [dictKeys_cons, List.nodup_cons] at hb
    have hins : dictInsert d p.1 p.2 = d ++ [(p.1, p.2)] :=
      dictInsert_of_not_mem p.2 (hd p.1 (mem_dictKeys_cons.mpr (Or.inl rfl)))
    have harg : ∀ kk ∈ dictKeys rest, kk ∉ dictKeys (d ++ [(p.1, p.2)]) := by
      intro kk hkk hbad
      have hkeys : dictKeys (d ++ [(p.1, p.2)]) = dictKeys d ++ [p.1] := by
        simp [dictKeys]
      rw [hkeys, List.mem_append, List.mem_singleton] at hbad
      rcases hbad with hbad | hbad
      · exact hd kk (mem_dictKeys_cons.mpr (Or.inr hkk)) hbad
      · exact hb.1 (hbad ▸ hkk)
    rw [dictUpdate, hins, ih hb.2 (d ++ [(p.1, p.2)]) harg, List.append_assoc]
    simp

theorem dictUpdate_nil {a : Dict V} (ha : (dictKeys a).Nodup) : dictUpdate [] a = a := by
  rw [dictUpdate_eq_append ha [] (by simp [dictKeys])]
  simp

theorem wsOr_eq_dictUpdate {a b : Dict V} (ha : (dictKeys a).Nodup) :
    wsOr a b = dictUpdate a b := by
  rw [wsOr, dictUpdate_nil ha]

theorem mem_of_dictFind_eq_some {d : Dict V} {k : String} {v : V}
    (h : dictFind d k = some v) : (k, v) ∈ d := by
  induction d with
  | nil => simp [dictFind] at h
  | cons p rest ih =>
    rw [dictFind] at h
    by_cases hk : p.1 = k
    · rw [if_pos hk] at h
      have hv : p.2 = v := Option.some.inj h
      exact List.mem_cons.mpr (Or.inl (by rw [← hk, ← hv]))
    · rw [if_neg hk] at h
      exact List.mem_cons_of_mem _ (ih h)

theorem dictFind_eq_some_of_mem_nodup {d : Dict V} (hnd : (dictKeys d).Nodup) {k : String}
    {v : V} (h : (k, v) ∈ d) : dictFind d k = some v := by
  induction d with
  | nil => simp at h
  | cons p rest ih =>
    rw [dictKeys_cons, List.nodup_cons] at hnd
    rcases List.mem_cons.mp h with h1 | h1
    · rw [dictFind, ← h1, if_pos rfl]
    · have hk : ¬(p.1 = k) := by
        intro he
        exact hnd.1 (he ▸ List.mem_map_of_mem Prod.fst h1)
      rw [dictFind, if_neg hk]
      exact ih hnd.2 h1

end DictLemmas

/-! Lemmas on the failure bookkeeping (`register_fail`, `permanentAvoid`). -/

theorem register_fail_counts (counts : Dict Nat) (avoid : Finset String) (s : String) :
    (register_fail counts avoid s).1 = dictInsert counts s (dictGetD counts s 0 + 1) := by
  rw [register_fail]
  split <;> rfl

theorem register_fail_getD_self (counts : Dict Nat) (avoid : Finset String) (s : String) :
    dictGetD (register_fail counts avoid s).1 s 0 = dictGetD counts s 0 + 1 := by
  rw [register_fail_counts, dictGetD, dictFind_insert_self]
  rfl

theorem register_fail_getD_mono (counts : Dict Nat) (avoid : Finset String) (s s' : String) :
    dictGetD counts s' 0 ≤ dictGetD (register_fail counts avoid s).1 s' 0 := by
  by_cases h : s' = s
  · subst h
    rw [register_fail_getD_self]
    exact Nat.le_succ _
  · rw [register_fail_counts]
    simp only [dictGetD]
    rw [dictFind_insert_ne _ _ h]

theorem register_fail_avoid_mono {counts : Dict Nat} {avoid : Finset String} {s : String} :
    avoid ⊆ (register_fail counts avoid s).2 := by
  rw [register_fail]
  split
  · exact Finset.subset_insert _ _
  · exact Finset.Subset.refl _

theorem register_fail_mem_avoid_iff (counts : Dict Nat) (avoid : Finset String) (s s' : String) :
    s' ∈ (register_fail counts avoid s).2 ↔
      s' ∈ avoid ∨ (s' = s ∧ max_fails_per_var ≤ dictGetD counts s 0 + 1) := by
  rw [register_fail]
  split
  · next h =>
    simp only [Finset.mem_insert]
    constructor
    · rintro (h1 | h1)
      · exact Or.inr ⟨h1, h⟩
      · exact Or.inl h1
    · rintro (h1 | h1)
      · exact Or.inr h1
      · exact Or.inl h1.1
  · next h =>
    constructor
    · exact Or.inl
    · rintro (h1 | h1)
      · exact h1
      · exact absurd h1.2 h

theorem mem_permanentAvoid_of_getD {counts : Dict Nat} {s : String}
    (h : max_fails_per_var ≤ dictGetD counts s 0) : s ∈ permanentAvoid counts := by
  rw [permanentAvoid, List.mem_toFinset]
  have hfind : dictFind counts s = some (dictGetD counts s 0) := by
    rw [dictGetD] at h ⊢
    cases hf : dictFind counts s with
    | none => rw [hf] at h; exact absurd h (by simp [max_fails_per_var])
    | some n => simp [hf]
  have hmem : (s, dictGetD counts s 0) ∈ counts := mem_of_dictFind_eq_some hfind
  exact List.mem_map_of_mem Prod.fst (List.mem_filter.mpr ⟨hmem, by simpa using h⟩)

theorem permanentAvoid_mem_iff {counts : Dict Nat} (hnd : (dictKeys counts).Nodup)
    {s : String} : s ∈ permanentAvoid counts ↔ max_fails_per_var ≤ dictGetD counts s 0 := by
  constructor
  · intro h
    rw [permanentAvoid, List.mem_toFinset, List.mem_map] at h
    rcases h with ⟨p, hp, hps⟩
    rcases List.mem_filter.mp hp with ⟨hmem, hle⟩
    have : dictFind counts s = some p.2 := by
      have := dictFind_eq_some_of_mem_nodup hnd (k := p.1) (v := p.2) hmem
      rwa [hps] at this
    rw [dictGetD, this]
    simpa using hle
  · exact mem_permanentAvoid_of_getD

/-- C2: `Workspace` merge (`__or__`) is a right-biased total union — the
result contains every key of both operands, `b`'s value wins on a shared
key, a key only in `a` keeps `a`'s value, and merging with the empty
fragment is the identity.  (In this pure embedding `wsOr` builds a fresh
list, so non-destructiveness of the Python method — a new instance,
operands untouched — is inherent.) -/
theorem wsOr_right_biased_total_identity {V : Type} (a b : Dict V)
    (ha : (dictKeys a).Nodup) (hb : (dictKeys b).Nodup) :
    (∀ k, k ∈ dictKeys a → k ∈ dictKeys (wsOr a b)) ∧
    (∀ k, k ∈ dictKeys b → k ∈ dictKeys (wsOr a b)) ∧
    (∀ k, k ∈ dictKeys b → dictFind (wsOr a b) k = dictFind b k) ∧
    (∀ k, k ∈ dictKeys a → k ∉ dictKeys b → dictFind (wsOr a b) k = dictFind a k) ∧
    wsOr a [] = a := by
  rw [wsOr_eq_dictUpdate ha]
  refine ⟨fun k hk => ?_, fun k hk => ?_, fun k hk => ?_, fun k hka hkb => ?_, ?_⟩
  · exact (mem_dictKeys_dictUpdate a).mpr (Or.inl hk)
  · exact (mem_dictKeys_dictUpdate a).mpr (Or.inr hk)
  · exact dictFind_dictUpdate_of_mem hb hk a
  · exact dictFind_dictUpdate_of_not_mem hkb a
  · rw [wsOr_eq_dictUpdate ha, dictUpdate]

/-- C3: at a failing input (verbose on, proposal resolving to the goal,
local check passing, global verification rejecting) the code registers
NO failure — it falls through to the post-iteration bookkeeping with
counters and avoid set untouched — whereas the same input with verbose
off registers failures on both the objective and the prerequisite, as
the claim (and the code's own "Adding to avoid list" message) demand. -/
theorem forward_goal_verbose_skips_register_fail :
    forwardPhase (constEnv [("g", "1")] true false true) "g" "t" 0 (initSt : St String) =
      ForwardOut.fall { (initSt : St String) with calls := 1 } false ∧
    forwardPhase (constEnv [("g", "1")] true false false) "g" "t" 0 (initSt : St String) =
      ForwardOut.skip
        { (initSt : St String) with attempt_counts := [("g", 1), ("t", 1)], calls := 1 } := by
  constructor <;> rfl

/-- C4 counterexample: the very first rejection of a fresh symbol
increments its counter to 1 but does NOT put it in the avoid set, so the
avoid set does not grow immediately on any rejection. -/
theorem register_fail_not_immediate :
    "x" ∉ (register_fail [] ∅ "x").2 ∧ dictGetD (register_fail [] ∅ "x").1 "x" 0 = 1 := by
  decide

/-- C4 (amended): `register_fail` adds the symbol to the avoid set
exactly when the incremented counter reaches the threshold (3), and a
stagnation reset retains exactly the symbols whose counter has reached
the threshold. -/
theorem register_fail_threshold_avoid (counts : Dict Nat) (avoid : Finset String)
    (s s' : String) (hnd : (dictKeys counts).Nodup) :
    (s' ∈ (register_fail counts avoid s).2 ↔
      s' ∈ avoid ∨ (s' = s ∧ max_fails_per_var ≤ dictGetD counts s 0 + 1)) ∧
    (s' ∈ permanentAvoid counts ↔ max_fails_per_var ≤ dictGetD counts s' 0) :=
  ⟨register_fail_mem_avoid_iff counts avoid s s', permanentAvoid_mem_iff hnd⟩

/-- Witness for the amended C4: a symbol at count 2 enters the avoid set
on its third failure, and survives a reset exactly when at 3. -/
theorem register_fail_threshold_avoid_witness :
    ("x" ∈ (register_fail [("x", 2)] ∅ "x").2 ↔
      "x" ∈ (∅ : Finset String) ∨
        ("x" = "x" ∧ max_fails_per_var ≤ dictGetD [("x", 2)] "x" 0 + 1)) ∧
    ("x" ∈ permanentAvoid [("x", 2)] ↔ max_fails_per_var ≤ dictGetD [("x", 2)] "x" 0) :=
  register_fail_threshold_avoid [("x", 2)] ∅ "x" "x" (by decide)

/-- C5 counterexample: an iteration in which the backward step proposes
the empty sentinel commits no new fact and ends via `continue`, leaving
the stagnation counter at 0 instead of incrementing it. -/
theorem no_commit_iteration_keeps_stagnation :
    runIteration (constEnv [] false false false) "g" 0 (initSt : St String) =
      IterOut.cont { (initSt : St String) with attempt_counts := [("g", 1)], calls := 2 } := by
  rfl

/-- C8: on the deterministic two-hop stub strategy the controller
returns the objective's verified value with a budget of 3 iterations and
exhausts with a budget of 2, i.e. it solves in exactly 3 iterations. -/
theorem two_hop_solved_in_three_iterations :
    reason_from_future "p" envC8 3 = Except.ok "42" ∧
    reason_from_future "p" envC8 2 = Except.error RffError.exhausted := by
  constructor <;> rfl

/-- C10 counterexample: a two-key proposal whose first key equals the
requested prerequisite, with the merged state passing the local check,
commits NOTHING when that prerequisite is the objective itself — the
goal branch discards the candidate on verification failure. -/
theorem first_key_prerequisite_goal_not_committed :
    forwardPhase (constEnv [("g", "1"), ("x", "2")] true false false) "g" "g" 0
        (initSt : St String) =
      ForwardOut.skip { (initSt : St String) with attempt_counts := [("g", 1)], calls := 1 } := by
  rfl

/-- Witness for C2 at concrete workspaces: on the shared key `x` the
right operand wins, and merging with the empty fragment is the
identity. -/
theorem wsOr_right_biased_total_identity_witness :
    dictFind (wsOr [("x", "1")] [("x", "2"), ("y", "3")]) "x" =
      dictFind [("x", "2"), ("y", "3")] "x" ∧
    wsOr [("x", "1")] ([] : Dict String) = [("x", "1")] :=
  ⟨(wsOr_right_biased_total_identity [("x", "1")] [("x", "2"), ("y", "3")]
      (by decide) (by decide)).2.2.1 "x" (by decide),
   (wsOr_right_biased_total_identity [("x", "1")] [("x", "2"), ("y", "3")]
      (by decide) (by decide)).2.2.2.2⟩

/-! Shape lemmas for the controller phases. -/

theorem register_fail_le (c : Dict Nat) (a : Finset String) (x : String) :
    a ⊆ (register_fail c a x).2 ∧
      ∀ s, dictGetD c s 0 ≤ dictGetD (register_fail c a x).1 s 0 :=
  ⟨register_fail_avoid_mono, fun s => register_fail_getD_mono c a x s⟩

theorem register_fail_ite_le (c : Dict Nat) (a : Finset String) (x y : String) (p : Prop)
    [Decidable p] :
    a ⊆ (if p then register_fail (register_fail c a x).1 (register_fail c a x).2 y
         else register_fail c a x).2 ∧
      ∀ s, dictGetD c s 0 ≤
        dictGetD (if p then register_fail (register_fail c a x).1 (register_fail c a x).2 y
                  else register_fail c a x).1 s 0 := by
  split
  · exact ⟨Finset.Subset.trans (register_fail_le _ _ _).1 (register_fail_le _ _ _).1,
      fun s => Nat.le_trans ((register_fail_le _ _ _).2 s) ((register_fail_le _ _ _).2 s)⟩
  · exact register_fail_le c a x

section PhaseLemmas

variable {V : Type} [ToString V] {env : Env V} {goal : String} {iter_idx : Nat}

theorem goalCheckPhase_cont_shape {st st' : St V}
    (h : goalCheckPhase env goal iter_idx st = .cont st') :
    st' = st ∨
      st' = { st with attempt_counts := (register_fail st.attempt_counts st.avoid goal).1,
                      avoid := (register_fail st.attempt_counts st.avoid goal).2 } := by
  simp only [goalCheckPhase] at h
  split at h
  · split at h
    · split at h <;> simp at h
    · split at h
      · simp at h
      · exact Or.inr (IterOut.cont.inj h).symm
  · exact Or.inl (IterOut.cont.inj h).symm

theorem directAttemptPhase_cont_shape {st st' : St V}
    (h : directAttemptPhase env goal iter_idx st = .cont st') :
    (goal ∈ st.avoid ∧ st' = st) ∨
      (goal ∉ st.avoid ∧
        st' = { st with state := wsOr st.state (directParsed env goal st),
                        attempt_counts := (register_fail st.attempt_counts st.avoid goal).1,
                        avoid := (register_fail st.attempt_counts st.avoid goal).2,
                        calls := st.calls + 1 }) := by
  simp only [directAttemptPhase] at h
  split at h
  · next hmem => exact Or.inl ⟨hmem, (IterOut.cont.inj h).symm⟩
  · next hmem =>
    refine Or.inr ⟨hmem, ?_⟩
    split at h
    · split at h
      · split at h <;> simp at h
      · split at h
        · simp at h
        · exact (IterOut.cont.inj h).symm
    · exact (IterOut.cont.inj h).symm

theorem forwardPhase_fall_shape {t : String} {st st' : St V} {mp : Bool}
    (h : forwardPhase env goal t iter_idx st = .fall st' mp) :
    (mp = false ∧ st' = { st with calls := st.calls + 1 }) ∨
      (mp = true ∧ resolveTarget (forwardParsed env t st) = some t ∧
        env.spec.check_local (wsOr st.state (forwardParsed env t st)) t = true ∧
        st' = { st with state := wsOr st.state (forwardParsed env t st),
                        attempt_counts := (register_fail st.attempt_counts st.avoid t).1,
                        avoid := (register_fail st.attempt_counts st.avoid t).2,
                        calls := st.calls + 1 }) := by
  simp only [forwardPhase] at h
  split at h
  · next v heq =>
    split at h
    · next hvg =>
      split at h
      · split at h
        · split at h <;> simp at h
        · split at h
          · simp at h
          · split at h
            · injection h with h1 h2
              exact Or.inl ⟨h2.symm, h1.symm⟩
            · simp at h
      · simp at h
    · next hvg =>
      split at h
      · next hvt =>
        split at h
        · next hchk =>
          injection h with h1 h2
          subst hvt
          exact Or.inr ⟨h2.symm, heq, hchk, h1.symm⟩
        · simp at h
      · simp at h
  · simp at h

theorem forwardPhase_skip_shape {t : String} {st st' : St V}
    (h : forwardPhase env goal t iter_idx st = .skip st') :
    st'.state = st.state ∧ st'.stagnation_counter = st.stagnation_counter ∧
      st'.calls = st.calls + 1 ∧ st.avoid ⊆ st'.avoid ∧
      ∀ s, dictGetD st.attempt_counts s 0 ≤ dictGetD st'.attempt_counts s 0 := by
  simp only [forwardPhase] at h
  split at h
  · next v heq =>
    split at h
    · split at h
      · split at h
        · split at h <;> simp at h
        · split at h
          · simp at h
          · split at h
            · simp at h
            · injection h with h1
              subst h1
              exact ⟨rfl, rfl, rfl, (register_fail_ite_le _ _ _ _ _).1,
                (register_fail_ite_le _ _ _ _ _).2⟩
      · injection h with h1
        subst h1
        exact ⟨rfl, rfl, rfl, (register_fail_ite_le _ _ _ _ _).1,
          (register_fail_ite_le _ _ _ _ _).2⟩
    · split at h
      · split at h
        · simp at h
        · injection h with h1
          subst h1
          exact ⟨rfl, rfl, rfl, (register_fail_le _ _ _).1, (register_fail_le _ _ _).2⟩
      · injection h with h1
        subst h1
        exact ⟨rfl, rfl, rfl, (register_fail_le _ _ _).1, (register_fail_le _ _ _).2⟩
  · injection h with h1
    subst h1
    exact ⟨rfl, rfl, rfl, (register_fail_le _ _ _).1, (register_fail_le _ _ _).2⟩

end PhaseLemmas

/-- C1: in forward execution a proposal is committed to the running
workspace only when it resolves to the requested prerequisite and the
merged candidate passes the local check against that symbol; every
`continue` outcome (malformed proposal, mismatched target, failed local
check, discarded goal candidate) and every no-progress fall-through
leaves the running workspace unchanged. -/
theorem forward_commit_requires_local_check {V : Type} [ToString V] (env : Env V)
    (goal t : String) (i : Nat) (st : St V) :
    (∀ st', forwardPhase env goal t i st = .skip st' → st'.state = st.state) ∧
    (∀ st' mp, forwardPhase env goal t i st = .fall st' mp →
      st'.state = st.state ∨
        (resolveTarget (forwardParsed env t st) = some t ∧
          env.spec.check_local (wsOr st.state (forwardParsed env t st)) t = true ∧
          st'.state = wsOr st.state (forwardParsed env t st))) := by
  constructor
  · intro st' h
    exact (forwardPhase_skip_shape h).1
  · intro st' mp h
    rcases forwardPhase_fall_shape h with ⟨_, h2⟩ | ⟨_, hres, hchk, h2⟩
    · exact Or.inl (by rw [h2])
    · exact Or.inr ⟨hres, hchk, by rw [h2]⟩

/-- Witness for C1: a proposal that parses to nothing is rejected and the
workspace after the forward phase equals the workspace before it. -/
theorem forward_commit_requires_local_check_witness :
    ({ (initSt : St String) with attempt_counts := [("t", 1)], calls := 1 } : St String).state =
      (initSt : St String).state :=
  (forward_commit_requires_local_check (constEnv [] false false false) "g" "t" 0 initSt).1
    { (initSt : St String) with attempt_counts := [("t", 1)], calls := 1 } rfl

/-- C7: whenever the objective is outside the avoid set, the direct
attempt runs and — if it does not end the run — the candidate workspace
(running state merged with the parsed direct response, keeping any
side-facts) becomes the new running state and a failure is registered on
the objective, with no assumption on the local check's outcome. -/
theorem direct_attempt_commits_candidate_and_registers {V : Type} [ToString V] (env : Env V)
    (goal : String) (i : Nat) (st st' : St V) (hg : goal ∉ st.avoid)
    (h : directAttemptPhase env goal i st = .cont st') :
    st'.state = wsOr st.state (directParsed env goal st) ∧
      st'.attempt_counts = (register_fail st.attempt_counts st.avoid goal).1 ∧
      st'.avoid = (register_fail st.attempt_counts st.avoid goal).2 := by
  rcases directAttemptPhase_cont_shape h with ⟨hmem, _⟩ | ⟨_, h2⟩
  · exact absurd hmem hg
  · subst h2
    exact ⟨rfl, rfl, rfl⟩

/-- Witness for C7: a direct attempt whose response parses to nothing and
fails the local check still commits the (unchanged) candidate and bumps
the objective's counter. -/
theorem direct_attempt_commits_candidate_and_registers_witness :
    ({ (initSt : St String) with attempt_counts := [("g", 1)], calls := 1 } : St String).state =
        wsOr (initSt : St String).state
          (directParsed (constEnv [] false false false) "g" initSt) ∧
      ({ (initSt : St String) with attempt_counts := [("g", 1)], calls := 1 } :
          St String).attempt_counts =
        (register_fail (initSt : St String).attempt_counts (initSt : St String).avoid "g").1 ∧
      ({ (initSt : St String) with attempt_counts := [("g", 1)], calls := 1 } :
          St String).avoid =
        (register_fail (initSt : St String).attempt_counts (initSt : St String).avoid "g").2 :=
  direct_attempt_commits_candidate_and_registers (constEnv [] false false false) "g" 0 initSt
    { (initSt : St String) with attempt_counts := [("g", 1)], calls := 1 } (by decide) rfl

/-- C10 (amended): the controller resolves a proposal's target as the
first key of the parsed update in key-iteration order, and when that
first key equals the requested prerequisite, the prerequisite differs
from the objective, and the merged state passes the local check, the
whole proposal — every key of it, not only the first — is committed to
the running state. -/
theorem resolve_first_key_and_commit_all {V : Type} [ToString V] (env : Env V)
    (goal t : String) (i : Nat) (st : St V)
    (hne : t ≠ goal)
    (hres : resolveTarget (forwardParsed env t st) = some t)
    (hchk : env.spec.check_local (wsOr st.state (forwardParsed env t st)) t = true) :
    resolveTarget (forwardParsed env t st) = (dictKeys (forwardParsed env t st)).head? ∧
    forwardPhase env goal t i st =
      .fall { st with state := wsOr st.state (forwardParsed env t st),
                      attempt_counts := (register_fail st.attempt_counts st.avoid t).1,
                      avoid := (register_fail st.attempt_counts st.avoid t).2,
                      calls := st.calls + 1 } true ∧
    ∀ k, k ∈ dictKeys (forwardParsed env t st) →
      k ∈ dictKeys (wsOr st.state (forwardParsed env t st)) := by
  refine ⟨rfl, ?_, ?_⟩
  · simp only [forwardPhase, hres]
    simp [hne, hchk]
  · intro k hk
    simp only [wsOr]
    exact (mem_dictKeys_dictUpdate _).mpr (Or.inr hk)

/-- Witness for the amended C10: a two-key proposal whose first key is
the requested (non-objective) prerequisite is committed whole. -/
theorem resolve_first_key_and_commit_all_witness :
    forwardPhase (constEnv [("t", "1"), ("x", "2")] true false false) "g" "t" 0
        (initSt : St String) =
      ForwardOut.fall
        { (initSt : St String) with
            state := wsOr (initSt : St String).state
              (forwardParsed (constEnv [("t", "1"), ("x", "2")] true false false) "t" initSt),
            attempt_counts := [("t", 1)], calls := 1 } true :=
  (resolve_first_key_and_commit_all (constEnv [("t", "1"), ("x", "2")] true false false)
    "g" "t" 0 initSt (by decide) rfl rfl).2.1

/-! Bookkeeping-phase lemmas. -/

section BookkeepingLemmas

variable {V : Type} [ToString V]

omit [ToString V] in
theorem bookkeepingPhase_eq (env : Env V) (st : St V) (mp : Bool) :
    bookkeepingPhase env st mp =
      if stagnation_window ≤ (if mp then 0 else st.stagnation_counter + 1) then
        { st with state := env.spec.merge_aliases st.state,
                  avoid := permanentAvoid st.attempt_counts,
                  stagnation_counter := 0 }
      else
        { st with state := env.spec.merge_aliases st.state,
                  stagnation_counter := if mp then 0 else st.stagnation_counter + 1 } := by
  cases mp <;> rfl

omit [ToString V] in
theorem bookkeepingPhase_attempt_counts (env : Env V) (st : St V) (mp : Bool) :
    (bookkeepingPhase env st mp).attempt_counts = st.attempt_counts := by
  rw [bookkeepingPhase_eq]
  split <;> split <;> rfl

omit [ToString V] in
theorem bookkeepingPhase_mem_avoid {env : Env V} {st : St V} {s : String} (mp : Bool)
    (hc : max_fails_per_var ≤ dictGetD st.attempt_counts s 0) (ha : s ∈ st.avoid) :
    s ∈ (bookkeepingPhase env st mp).avoid := by
  rw [bookkeepingPhase_eq]
  split <;> split <;> first
    | exact mem_permanentAvoid_of_getD hc
    | exact ha

end BookkeepingLemmas

/-- C5 (amended): the stagnation counter is touched only by iterations
that reach the post-iteration bookkeeping — a committing iteration
resets it to zero, a no-progress fall-through increments it and, exactly
when the incremented value reaches the window (4), prunes the avoid set
to the symbols whose counter has reached the failure threshold and
zeroes the counter; the pruning never removes a permanently-excluded
symbol; and an iteration ending in an early `continue` (here: any
rejected forward proposal) leaves the counter unchanged. -/
theorem stagnation_bookkeeping_behavior {V : Type} [ToString V] (env : Env V)
    (goal t : String) (i : Nat) (st : St V) (s : String) :
    (bookkeepingPhase env st true).stagnation_counter = 0 ∧
    (bookkeepingPhase env st false).stagnation_counter =
      (if stagnation_window ≤ st.stagnation_counter + 1 then 0
       else st.stagnation_counter + 1) ∧
    (bookkeepingPhase env st false).avoid =
      (if stagnation_window ≤ st.stagnation_counter + 1 then permanentAvoid st.attempt_counts
       else st.avoid) ∧
    (max_fails_per_var ≤ dictGetD st.attempt_counts s 0 → s ∈ st.avoid →
      s ∈ (bookkeepingPhase env st false).avoid) ∧
    (∀ st', forwardPhase env goal t i st = ForwardOut.skip st' →
      st'.stagnation_counter = st.stagnation_counter) := by
  refine ⟨rfl, ?_, ?_, fun hc ha => bookkeepingPhase_mem_avoid false hc ha, ?_⟩
  · rw [bookkeepingPhase_eq]
    show (if stagnation_window ≤ st.stagnation_counter + 1 then
        { st with state := env.spec.merge_aliases st.state,
                  avoid := permanentAvoid st.attempt_counts,
                  stagnation_counter := 0 }
      else
        { st with state := env.spec.merge_aliases st.state,
                  stagnation_counter := st.stagnation_counter + 1 }).stagnation_counter = _
    split <;> rfl
  · rw [bookkeepingPhase_eq]
    show (if stagnation_window ≤ st.stagnation_counter + 1 then
        { st with state := env.spec.merge_aliases st.state,
                  avoid := permanentAvoid st.attempt_counts,
                  stagnation_counter := 0 }
      else
        { st with state := env.spec.merge_aliases st.state,
                  stagnation_counter := st.stagnation_counter + 1 }).avoid = _
    split <;> rfl
  · intro st' h
    exact (forwardPhase_skip_shape h).2.1

/-- Witness for the amended C5: pruning keeps the permanently-failed
symbol `g`, and a rejected forward proposal leaves the counter as it
was. -/
theorem stagnation_bookkeeping_behavior_witness :
    "g" ∈ (bookkeepingPhase (constEnv [] false false false) stC9 false).avoid ∧
    ({ stC9 with attempt_counts := [("g", 3), ("t", 1)], calls := 1 } :
        St String).stagnation_counter = stC9.stagnation_counter :=
  ⟨(stagnation_bookkeeping_behavior (constEnv [] false false false) "g" "t" 0 stC9
      "g").2.2.2.1 (by decide) (by decide),
   (stagnation_bookkeeping_behavior (constEnv [] false false false) "g" "t" 0 stC9
      "g").2.2.2.2 { stC9 with attempt_counts := [("g", 3), ("t", 1)], calls := 1 } rfl⟩

/-! Lemmas for an always-rejecting global verifier in gold-required
mode: no phase can end the run. -/

section RejectLemmas

variable {V : Type} [ToString V] {env : Env V}

theorem goalCheckPhase_cont_of_reject (hgold : env.require_gold = true)
    (hrej : ∀ ws, (env.spec.verify_final ws).1 = false) (goal : String) (i : Nat) (st : St V) :
    ∃ st', goalCheckPhase env goal i st = .cont st' := by
  simp only [goalCheckPhase, hgold, Bool.not_true, Bool.false_and, hrej]
  split <;> exact ⟨_, rfl⟩

theorem directAttemptPhase_cont_of_reject (hgold : env.require_gold = true)
    (hrej : ∀ ws, (env.spec.verify_final ws).1 = false) (goal : String) (i : Nat) (st : St V) :
    ∃ st', directAttemptPhase env goal i st = .cont st' := by
  simp only [directAttemptPhase, hgold, Bool.not_true, Bool.false_and, hrej]
  split
  · exact ⟨_, rfl⟩
  · split <;> exact ⟨_, rfl⟩

theorem forwardPhase_cases_of_reject (hgold : env.require_gold = true)
    (hrej : ∀ ws, (env.spec.verify_final ws).1 = false) (goal t : String) (i : Nat)
    (st : St V) :
    (∃ st', forwardPhase env goal t i st = .skip st') ∨
      ∃ st' mp, forwardPhase env goal t i st = .fall st' mp := by
  cases hf : forwardPhase env goal t i st with
  | skip st' => exact Or.inl ⟨_, rfl⟩
  | fall st' mp => exact Or.inr ⟨_, _, rfl⟩
  | done a =>
    exfalso
    simp only [forwardPhase, hgold, Bool.not_true, Bool.false_and, hrej] at hf
    repeat' split at hf
    all_goals simp_all
  | fail e =>
    exfalso
    simp only [forwardPhase, hgold, Bool.not_true, Bool.false_and, hrej] at hf
    repeat' split at hf
    all_goals simp_all

theorem runIteration_cont_of_reject (hgold : env.require_gold = true)
    (hrej : ∀ ws, (env.spec.verify_final ws).1 = false) (goal : String) (i : Nat) (st : St V) :
    ∃ st', runIteration env goal i st = .cont st' := by
  obtain ⟨st1, h1⟩ := goalCheckPhase_cont_of_reject hgold hrej goal i st
  obtain ⟨st2, h2⟩ := directAttemptPhase_cont_of_reject hgold hrej goal i st1
  simp only [runIteration, h1, h2]
  split
  · exact ⟨_, rfl⟩
  · rcases forwardPhase_cases_of_reject hgold hrej goal _ i _ with ⟨st4, h4⟩ | ⟨st4, mp, h4⟩ <;>
      rw [h4]
    · exact ⟨_, rfl⟩
    · exact ⟨_, rfl⟩

end RejectLemmas

/-- C6: for every strategy whose global verification always rejects, in
gold-required mode the controller never returns a value: for every
iteration budget the loop runs to exhaustion and reports it as an
explicit error to the caller. -/
theorem always_reject_exhausts {V : Type} [ToString V] (env : Env V)
    (hgold : env.require_gold = true)
    (hrej : ∀ ws, (env.spec.verify_final ws).1 = false) :
    (∀ (goal : String) (fuel iter_idx : Nat) (st : St V),
        runLoop env goal iter_idx fuel st = .error .exhausted) ∧
      ∀ (problem : String) (max_iters : Nat),
        reason_from_future problem env max_iters = .error .exhausted := by
  have hloop : ∀ (goal : String) (fuel iter_idx : Nat) (st : St V),
      runLoop env goal iter_idx fuel st = .error .exhausted := by
    intro goal fuel
    induction fuel with
    | zero => intro i st; rfl
    | succ n ih =>
      intro i st
      obtain ⟨st', h⟩ := runIteration_cont_of_reject hgold hrej goal i st
      rw [runLoop, h]
      exact ih (i + 1) st'
  exact ⟨hloop, fun problem mi => hloop _ mi 0 initSt⟩

/-- Witness for C6 on a concrete always-rejecting stub with budget 2. -/
theorem always_reject_exhausts_witness :
    runLoop (constEnv [] false false false) "g" 0 2 (initSt : St String) =
        .error .exhausted ∧
      reason_from_future "p" (constEnv [] false false false) 2 = .error .exhausted :=
  ⟨(always_reject_exhausts (constEnv [] false false false) rfl fun _ => rfl).1 "g" 2 0 initSt,
   (always_reject_exhausts (constEnv [] false false false) rfl fun _ => rfl).2 "p" 2⟩

/-- Permanence of a threshold-reached avoided symbol across one full
iteration: the counter never decreases and membership in the avoid set
survives every phase, including a stagnation reset. -/
theorem runIteration_cont_preserves_perm {V : Type} [ToString V] {env : Env V} {goal : String}
    {i : Nat} {st st' : St V} {s : String}
    (hc : max_fails_per_var ≤ dictGetD st.attempt_counts s 0) (ha : s ∈ st.avoid)
    (h : runIteration env goal i st = .cont st') :
    s ∈ st'.avoid ∧ max_fails_per_var ≤ dictGetD st'.attempt_counts s 0 := by
  simp only [runIteration] at h
  split at h
  · simp at h
  · simp at h
  · next st1 heq1 =>
    have h1 : s ∈ st1.avoid ∧ max_fails_per_var ≤ dictGetD st1.attempt_counts s 0 := by
      rcases goalCheckPhase_cont_shape heq1 with he | he <;> subst he
      · exact ⟨ha, hc⟩
      · exact ⟨register_fail_avoid_mono ha,
          Nat.le_trans hc (register_fail_getD_mono _ _ _ s)⟩
    split at h
    · simp at h
    · simp at h
    · next st2 heq2 =>
      have h2 : s ∈ st2.avoid ∧ max_fails_per_var ≤ dictGetD st2.attempt_counts s 0 := by
        rcases directAttemptPhase_cont_shape heq2 with ⟨_, he⟩ | ⟨_, he⟩ <;> subst he
        · exact h1
        · exact ⟨register_fail_avoid_mono h1.1,
            Nat.le_trans h1.2 (register_fail_getD_mono _ _ _ s)⟩
      have h2b : s ∈ ((backwardPhase env goal st2).2).avoid ∧
          max_fails_per_var ≤ dictGetD ((backwardPhase env goal st2).2).attempt_counts s 0 := h2
      split at h
      · exact (IterOut.cont.inj h) ▸ h2b
      · split at h
        · simp at h
        · simp at h
        · next st4 heq4 =>
          have hsk := forwardPhase_skip_shape heq4
          exact (IterOut.cont.inj h) ▸
            ⟨hsk.2.2.2.1 h2b.1, Nat.le_trans h2b.2 (hsk.2.2.2.2 s)⟩
        · next st4 mp heq4 =>
          have h4 : s ∈ st4.avoid ∧ max_fails_per_var ≤ dictGetD st4.attempt_counts s 0 := by
            rcases forwardPhase_fall_shape heq4 with ⟨_, hfe⟩ | ⟨_, _, _, hfe⟩ <;> subst hfe
            · exact h2b
            · exact ⟨register_fail_avoid_mono h2b.1,
                Nat.le_trans h2b.2 (register_fail_getD_mono _ _ _ s)⟩
          refine (IterOut.cont.inj h) ▸ ⟨bookkeepingPhase_mem_avoid mp h4.2 h4.1, ?_⟩
          rw [bookkeepingPhase_attempt_counts]
          exact h4.2

/-- C9: each direct-attempt execution that does not end the run
increments the objective's failure counter; once the counter has reached
the threshold and the objective is in the avoid set, the fast path is
skipped (the phase returns its input untouched), the avoid set handed to
the backward-planning prompt contains the objective, and a full
iteration — including any stagnation reset it performs — keeps the
objective avoided with its counter at or above the threshold. -/
theorem goal_threshold_permanently_avoided {V : Type} [ToString V] (env : Env V)
    (goal : String) (i : Nat) (st st' : St V) :
    (goal ∉ st.avoid → ∀ st2, directAttemptPhase env goal i st = .cont st2 →
      dictGetD st2.attempt_counts goal 0 = dictGetD st.attempt_counts goal 0 + 1) ∧
    (goal ∈ st.avoid → directAttemptPhase env goal i st = .cont st) ∧
    (goal ∈ st.avoid → ∃ A, goal ∈ A ∧
      backwardPhase env goal st =
        (env.spec.parse_target_step
            (env.llm st.calls (env.spec.prompt_last_step st.state goal A)),
          { st with calls := st.calls + 1 })) ∧
    (max_fails_per_var ≤ dictGetD st.attempt_counts goal 0 → goal ∈ st.avoid →
      runIteration env goal i st = .cont st' →
      goal ∈ st'.avoid ∧ max_fails_per_var ≤ dictGetD st'.attempt_counts goal 0) := by
  refine ⟨?_, ?_, ?_, fun hc ha h => runIteration_cont_preserves_perm hc ha h⟩
  · intro hg st2 h2
    rcases directAttemptPhase_cont_shape h2 with ⟨hmem, _⟩ | ⟨_, he⟩
    · exact absurd hmem hg
    · subst he
      exact register_fail_getD_self _ _ _
  · intro hg
    rw [directAttemptPhase, if_pos hg]
  · intro hg
    exact ⟨st.avoid, hg, rfl⟩

/-- Witness for C9 at a state whose objective counter is at the
threshold: the fast path is skipped and one full iteration preserves
permanent avoidance. -/
theorem goal_threshold_permanently_avoided_witness :
    directAttemptPhase (constEnv [] false false false) "g" 0 stC9 = .cont stC9 ∧
      ("g" ∈ ({ stC9 with calls := 1 } : St String).avoid ∧
        max_fails_per_var ≤
          dictGetD ({ stC9 with calls := 1 } : St String).attempt_counts "g" 0) :=
  ⟨(goal_threshold_permanently_avoided (constEnv [] false false false) "g" 0 stC9 stC9).2.1
      (by decide),
   (goal_threshold_permanently_avoided (constEnv [] false false false) "g" 0 stC9
      { stC9 with calls := 1 }).2.2.2 (by decide) (by decide) rfl⟩

end Rff
